import Mathlib

/-!
Verification development for the console-samurai repository.

The definitions below are a shallow embedding of the repository's core:

* the value serializer `serializeValue` (src/unnamed/part_000 lines 334-389,
  identical in src/unnamed/part_001 lines 401-459 up to a browser-only
  `Element` branch that the model omits because no claim touches it);
* the patched console method and patched `fetch` wrappers
  (src/unnamed/part_000 lines 147-183, src/unnamed/part_001 lines 120-156 and
  229-276);
* the transport client's connection state machine
  (src/unnamed/part_000 lines 53-126);
* the host-side log store and inline annotation state
  (src/extension.js lines 294-338, 351-374, 435-535, 741-747).

JavaScript machine values are modelled as follows: numbers as `Int`, strings
as `String` (code-unit-level operations such as `slice` become `String.take`),
objects as identities (`Nat`) resolved through an explicit heap, `undefined` /
`null` as `Option` or dedicated constructors, and exceptions as `Except`.
-/

namespace ConsoleSamurai

/-! ## Value model for the serializer (src/unnamed/part_000 lines 329-389) -/

/-- A JavaScript value as seen by `serializeValue`.  Primitives are inlined;
objects (arrays, plain objects, `Error`s, `Date`s) live on an explicit heap
and are referred to by identity, which is what the `WeakSet` of the source
tracks. -/
inductive JsVal where
  | vnull
  | vundefined
  | vnum (n : Int)
  | vbool (b : Bool)
  | vbigint (s : String)
  | vsym (s : String)
  | vstr (s : String)
  | vfunc (name : String)
  | vref (i : Nat)

/-- A heap object: an array, a plain object with ordered own keys, an `Error`,
or a `Date` (already rendered to its ISO string). -/
inductive HeapObj where
  | harr (elems : List JsVal)
  | hobj (props : List (String × JsVal))
  | herr (name msg stack : String)
  | hdate (iso : String)

/-- The object heap: every identity resolves to some object (JavaScript
references are never dangling). -/
def Heap := Nat → HeapObj

/-- `true` exactly for the heap objects the serializer recurses into
(arrays and plain objects); `Error` and `Date` objects are rendered by the
earlier `instanceof` branches and are never added to the visiting set. -/
def HeapObj.isContainer : HeapObj → Bool
  | .harr _ => true
  | .hobj _ => true
  | .herr _ _ _ => false
  | .hdate _ => false

/-- The serializer's output: a JSON-safe value
(spec §4.1's `SafeValue`, plus `sundefined` because the source passes
`undefined` through unchanged). -/
inductive SVal where
  | snull
  | sundefined
  | snum (n : Int)
  | sbool (b : Bool)
  | sstr (s : String)
  | sarr (elems : List SVal)
  | sobj (props : List (String × SVal))

/-- `state.config.logCaptureOptions` (src/unnamed/part_000 lines 12-17). -/
structure CaptureOptions where
  maxDepth : Nat
  maxProps : Nat
  maxArray : Nat
  maxStringLength : Nat

/-- The defaults of `DEFAULTS.logCaptureOptions` (src/unnamed/part_000
lines 12-17). -/
def defaultCaptureOptions : CaptureOptions :=
  { maxDepth := 4, maxProps := 50, maxArray := 50, maxStringLength := 2000 }

/-- Property lookup `value[key]` on a plain object (first matching own key;
`undefined` when absent, which cannot happen for keys produced by
`Object.keys`). -/
def lookupProp (props : List (String × JsVal)) (key : String) : JsVal :=
  match props.find? (fun kv => kv.1 == key) with
  | some kv => kv.2
  | none => .vundefined

/-- Serializes a list of values left to right, threading the mutable
visiting set exactly as the source's sequential loop does (the `WeakSet` is
passed by reference, so additions made while serializing one element are
visible while serializing the next). -/
def serializeListWith (f : JsVal → List Nat → SVal × List Nat) :
    List JsVal → List Nat → List SVal × List Nat
  | [], seen => ([], seen)
  | v :: rest, seen =>
    let (s, seen1) := f v seen
    let (ss, seen2) := serializeListWith f rest seen1
    (s :: ss, seen2)

/-- Shallow embedding of `serializeValue(value, options, depth, seen)`
(src/unnamed/part_000 lines 334-389).  The source recurses with `depth + 1`
and stops descending once `depth >= options.maxDepth`; the model carries the
equivalent remaining budget `remaining = options.maxDepth - depth`, so the
source's depth test becomes `remaining = 0` and its recursive calls use
`remaining - 1`.  `seen` is the `WeakSet` of ancestor object identities;
note that the source only ever *adds* to it (`seen.add(value)`, line 366)
and never removes. -/
def serializeValue (heap : Heap) (options : CaptureOptions) :
    Nat → JsVal → List Nat → SVal × List Nat
  | remaining, value, seen =>
    match value with
    | .vnull => (.snull, seen)
    | .vundefined => (.sundefined, seen)
    | .vnum n => (.snum n, seen)
    | .vbool b => (.sbool b, seen)
    | .vbigint s => (.sstr s, seen)
    | .vsym s => (.sstr s, seen)
    | .vstr s =>
      if s.length > options.maxStringLength then
        (.sstr (s.take options.maxStringLength ++ "..."), seen)
      else
        (.sstr s, seen)
    | .vfunc name =>
      (.sstr ("[Function " ++ (if name = "" then "anonymous" else name) ++ "]"), seen)
    | .vref i =>
      match heap i with
      | .herr name msg stack =>
        (.sobj [("name", .sstr name), ("message", .sstr msg), ("stack", .sstr stack)], seen)
      | .hdate iso => (.sstr iso, seen)
      | .harr elems =>
        if seen.contains i then
          (.sstr "[Circular]", seen)
        else
          match remaining with
          | 0 => (.sstr ("[Array(" ++ toString elems.length ++ ")]"), seen)
          | r + 1 =>
            let limit := min elems.length options.maxArray
            let (arr, seen1) :=
              serializeListWith (serializeValue heap options r) (elems.take limit) (i :: seen)
            let arr :=
              if elems.length > limit then
                arr ++ [.sstr ("... (" ++ toString (elems.length - limit) ++ " more)")]
              else arr
            (.sarr arr, seen1)
      | .hobj props =>
        if seen.contains i then
          (.sstr "[Circular]", seen)
        else
          match remaining with
          | 0 => (.sstr "[Object]", seen)
          | r + 1 =>
            let keys := props.map Prod.fst
            let limit := min keys.length options.maxProps
            let (vals, seen1) :=
              serializeListWith (serializeValue heap options r)
                ((keys.take limit).map (lookupProp props)) (i :: seen)
            let entries := (keys.take limit).zip vals
            let entries :=
              if keys.length > limit then
                entries ++ [("__truncated__", .sstr (toString (keys.length - limit) ++ " more keys"))]
              else entries
            (.sobj entries, seen1)

/-- `serializeValues(values)` (src/unnamed/part_000 lines 329-332): every
top-level argument is serialized at depth 0 with a fresh `WeakSet`. -/
def serializeValues (heap : Heap) (options : CaptureOptions) (values : List JsVal) : List SVal :=
  values.map (fun v => (serializeValue heap options options.maxDepth v []).1)

/-- A heap in which the same object (id 1) is reachable through two sibling
properties of the root object (id 0); the graph is acyclic. -/
def sharedHeap : Heap := fun i =>
  if i = 0 then .hobj [("x", .vref 1), ("y", .vref 1)]
  else if i = 1 then .hobj [("a", .vnum 1)]
  else .hobj []

/-- The heap for the spec's scenario `{a: 1, self: <itself>}`: object 0 holds
a number and a direct self-reference. -/
def selfHeap : Heap := fun i =>
  if i = 0 then .hobj [("a", .vnum 1), ("self", .vref 0)] else .hobj []

/-- A two-object cycle: 0 points to 1 which points back to 0. -/
def chainHeap : Heap := fun i =>
  if i = 0 then .hobj [("b", .vref 1)]
  else if i = 1 then .hobj [("back", .vref 0)]
  else .hobj []

end ConsoleSamurai

/-! ## Serializer lemmas -/

namespace ConsoleSamurai

/-- The visiting set only grows while a list of values is serialized,
provided the element serializer only grows it. -/
theorem serializeListWith_seen_sub (f : JsVal → List Nat → SVal × List Nat)
    (hf : ∀ v seen, seen ⊆ (f v seen).2) (vs : List JsVal) :
    ∀ seen, seen ⊆ (serializeListWith f vs seen).2 := by
  induction vs with
  | nil => intro seen; simp [serializeListWith]
  | cons v rest ih =>
    intro seen
    show seen ⊆ (serializeListWith f rest (f v seen).2).2
    exact List.Subset.trans (hf v seen) (ih _)

/-- `serializeValue` never removes anything from the visiting set: the input
set is contained in the returned set. -/
theorem serializeValue_seen_sub (heap : Heap) (options : CaptureOptions) :
    ∀ (remaining : Nat) (value : JsVal) (seen : List Nat),
      seen ⊆ (serializeValue heap options remaining value seen).2 := by
  intro remaining
  induction remaining with
  | zero =>
    intro value seen
    cases value
    case vstr s => simp only [serializeValue]; split <;> simp
    case vref i =>
      rcases hh : heap i with elems | props | ⟨n, m, st⟩ | iso <;>
        simp [serializeValue, hh] <;> split <;> simp
    all_goals simp [serializeValue]
  | succ r ih =>
    intro value seen
    cases value
    case vstr s => simp only [serializeValue]; split <;> simp
    case vref i =>
      rcases hh : heap i with elems | props | ⟨n, m, st⟩ | iso
      · by_cases hc : i ∈ seen
        · simp [serializeValue, hh, hc]
        · simp only [serializeValue, hh]
          simp [hc]
          exact List.Subset.trans (List.subset_cons_self i seen)
            (serializeListWith_seen_sub _ ih _ _)
      · by_cases hc : i ∈ seen
        · simp [serializeValue, hh, hc]
        · simp only [serializeValue, hh]
          simp [hc]
          exact List.Subset.trans (List.subset_cons_self i seen)
            (serializeListWith_seen_sub _ ih _ _)
      · simp [serializeValue, hh]
      · simp [serializeValue, hh]
    all_goals simp [serializeValue]

/-- Serializing a list of values produces exactly one output per input. -/
theorem serializeListWith_length (f : JsVal → List Nat → SVal × List Nat)
    (vs : List JsVal) : ∀ seen, ((serializeListWith f vs seen).1).length = vs.length := by
  induction vs with
  | nil => intro seen; simp [serializeListWith]
  | cons v rest ih =>
    intro seen
    show ((f v seen).1 :: (serializeListWith f rest (f v seen).2).1).length = rest.length + 1
    simp [ih]

end ConsoleSamurai

/-! ## Claim theorems about the serializer (C2, C4, C8) -/

namespace ConsoleSamurai

/-- C2 counterexample: the claim says the visiting set entry is removed
before `serializeValue` returns, so that in an acyclic graph where the same
object is reachable through two sibling branches both occurrences serialize
in full.  In the source the `WeakSet` is never pruned, so the second sibling
occurrence of object 1 in `sharedHeap` is rendered as the cycle marker
`"[Circular]"` instead of the full `{a: 1}`. -/
theorem serializeValue_sibling_counterexample :
    (serializeValue sharedHeap defaultCaptureOptions 4 (.vref 0) []).1 =
      .sobj [("x", .sobj [("a", .snum 1)]), ("y", .sstr "[Circular]")] ∧
    SVal.sstr "[Circular]" ≠ SVal.sobj [("a", .snum 1)] :=
  ⟨rfl, fun h => SVal.noConfusion h⟩

/-- C2 (amended): `serializeValue` never removes a value from the visiting
set — the set only grows, its membership leaks across sibling branches, and
consequently an acyclic object reachable through two sibling branches is
serialized in full only at its first occurrence; the second occurrence is
replaced by the `"[Circular]"` marker. -/
theorem serializeValue_visiting_monotone :
    (∀ (heap : Heap) (options : CaptureOptions) (remaining : Nat) (value : JsVal)
        (seen : List Nat), seen ⊆ (serializeValue heap options remaining value seen).2) ∧
    serializeValue sharedHeap defaultCaptureOptions 4 (.vref 0) [] =
      (.sobj [("x", .sobj [("a", .snum 1)]), ("y", .sstr "[Circular]")], [1, 0]) :=
  ⟨fun heap options => serializeValue_seen_sub heap options, rfl⟩

/-- C4: `serializeValue` terminates on every input — witnessed by the model
being a total function whose recursion is bounded by the remaining depth
budget — and a reference to an ancestor currently being serialized is
replaced by the `"[Circular]"` marker instead of being recursed into; in
particular the spec's scenario `{a: 1, self: <itself>}` with `maxDepth = 4`
serializes to `{a: 1, self: "[Circular]"}`, and a chained two-object cycle
is also cut at the back edge. -/
theorem serializeValue_cycle_safe :
    serializeValues selfHeap defaultCaptureOptions [.vref 0] =
      [.sobj [("a", .snum 1), ("self", .sstr "[Circular]")]] ∧
    serializeValues chainHeap defaultCaptureOptions [.vref 0] =
      [.sobj [("b", .sobj [("back", .sstr "[Circular]")])]] ∧
    ∀ (heap : Heap) (options : CaptureOptions) (remaining i : Nat) (seen : List Nat),
      seen.contains i = true → (heap i).isContainer = true →
      serializeValue heap options remaining (.vref i) seen = (.sstr "[Circular]", seen) := by
  refine ⟨rfl, rfl, ?_⟩
  intro heap options remaining i seen hc hcont
  have hm : i ∈ seen := by simpa using hc
  rcases hh : heap i with elems | props | ⟨n, m, st⟩ | iso
  · cases remaining <;> simp [serializeValue, hh, hm]
  · cases remaining <;> simp [serializeValue, hh, hm]
  · simp [HeapObj.isContainer, hh] at hcont
  · simp [HeapObj.isContainer, hh] at hcont

/-- Witness for C4's general conjunct at a concrete input: object 0 of
`selfHeap` is an ancestor already in the visiting set, so it serializes to
the cycle marker. -/
theorem serializeValue_cycle_safe_witness :
    serializeValue selfHeap defaultCaptureOptions 3 (.vref 0) [0] = (.sstr "[Circular]", [0]) :=
  serializeValue_cycle_safe.2.2 selfHeap defaultCaptureOptions 3 0 [0] rfl rfl

/-- C8: a string longer than `maxStringLength` serializes to exactly its
first `maxStringLength` characters followed by the fixed `"..."` suffix, and
an array longer than `maxArray` (reached below the depth limit and not
already being visited, the serializer's earlier rules) serializes to exactly
`maxArray` serialized elements followed by exactly one `"... (N more)"`
marker element. -/
theorem serializeValue_truncation :
    (∀ (heap : Heap) (options : CaptureOptions) (remaining : Nat) (s : String)
        (seen : List Nat),
      s.length > options.maxStringLength →
      serializeValue heap options remaining (.vstr s) seen =
        (.sstr (s.take options.maxStringLength ++ "..."), seen)) ∧
    (∀ (heap : Heap) (options : CaptureOptions) (r i : Nat) (elems : List JsVal)
        (seen : List Nat),
      heap i = .harr elems → elems.length > options.maxArray → seen.contains i = false →
      (serializeValue heap options (r + 1) (.vref i) seen).1 =
        .sarr ((serializeListWith (serializeValue heap options r)
            (elems.take options.maxArray) (i :: seen)).1 ++
          [.sstr ("... (" ++ toString (elems.length - options.maxArray) ++ " more)")]) ∧
      ((serializeListWith (serializeValue heap options r)
          (elems.take options.maxArray) (i :: seen)).1).length = options.maxArray) := by
  constructor
  · intro heap options remaining s seen hlen
    cases remaining <;> simp [serializeValue, hlen]
  · intro heap options r i elems seen hh hlen hc
    have hm : i ∉ seen := by simpa using hc
    have hmin : min elems.length options.maxArray = options.maxArray :=
      Nat.min_eq_right (Nat.le_of_lt hlen)
    constructor
    · simp [serializeValue, hh, hm, hmin, Nat.lt_of_lt_of_le hlen (Nat.le_refl _), hlen]
    · rw [serializeListWith_length]
      simp [List.length_take]
      omega

end ConsoleSamurai

namespace ConsoleSamurai

/-- Options with small limits, for exercising the truncation rules. -/
def exOptions : CaptureOptions :=
  { maxDepth := 4, maxProps := 50, maxArray := 2, maxStringLength := 3 }

/-- A heap whose objects are all the three-element array `[1, 2, 3]`. -/
def exArrHeap : Heap := fun _ => .harr [.vnum 1, .vnum 2, .vnum 3]

/-- Witness for C8 at concrete inputs: the five-character string `"abcde"`
with `maxStringLength = 3`, and the array `[1, 2, 3]` with `maxArray = 2`. -/
theorem serializeValue_truncation_witness :
    serializeValue exArrHeap exOptions 4 (.vstr "abcde") [] =
      (.sstr ("abcde".take 3 ++ "..."), []) ∧
    (serializeValue exArrHeap exOptions 1 (.vref 0) []).1 =
      .sarr ((serializeListWith (serializeValue exArrHeap exOptions 0)
          ([JsVal.vnum 1, .vnum 2, .vnum 3].take 2) [0]).1 ++
        [.sstr ("... (" ++ toString ([JsVal.vnum 1, .vnum 2, .vnum 3].length - 2) ++ " more)")]) :=
  ⟨serializeValue_truncation.1 exArrHeap exOptions 4 "abcde" [] (by decide),
   (serializeValue_truncation.2 exArrHeap exOptions 0 0 [.vnum 1, .vnum 2, .vnum 3] []
      rfl (by decide) rfl).1⟩

end ConsoleSamurai

/-! ## Capture wrappers (C1)

The patched console methods (src/unnamed/part_000 lines 147-183 and
src/unnamed/part_001 lines 120-156) and the patched `fetch`
(src/unnamed/part_001 lines 237-276). -/

namespace ConsoleSamurai

/-- What the original (wrapped) call does when invoked: return normally or
throw. -/
inductive CallBehavior (E : Type) where
  | ret
  | thrown (e : E)

/-- `try { b } catch (err) { /* ignore */ }`: a JavaScript try/catch with an
empty handler always completes normally. -/
def tryIgnore {E : Type} (b : CallBehavior E) : Except E Unit :=
  match b with
  | .ret => .ok ()
  | .thrown _ => .ok ()

/-- The observable outcome of invoking a wrapper: how the call completes for
its caller, and whether a capture payload was emitted. -/
structure WrapperOutcome (E : Type) (α : Type) where
  result : Except E α
  sent : Bool

/-- Shallow embedding of the patched console method body
(src/unnamed/part_000 lines 152-181):

```
const args = Array.prototype.slice.call(arguments);
if (original) { try { original.apply(console, args); } catch (err) { /* ignore */ } }
if (!state.config.captureConsole) { return; }
... send({...});
```

`original` is `none` when the runtime had no such console method.  The outer
`match` on the try/catch outcome encodes JavaScript abrupt-completion
propagation: had the try/catch rethrown, the wrapper would complete
abruptly with that exception. -/
def patchedConsoleMethod {E : Type} (original : Option (CallBehavior E))
    (captureConsole : Bool) : WrapperOutcome E Unit :=
  let step1 : Except E Unit :=
    match original with
    | some b => tryIgnore b
    | none => .ok ()
  match step1 with
  | .error e => { result := .error e, sent := false }
  | .ok _ =>
    if !captureConsole then { result := .ok (), sent := false }
    else { result := .ok (), sent := true }

/-- Shallow embedding of the patched `fetch` (src/unnamed/part_001 lines
237-276): when network capture is off the original is returned untouched;
otherwise the resolved response is captured and returned, and a rejection is
captured and rethrown (`throw err` in the `.catch` handler). -/
def patchedFetch {E α : Type} (networkEnabled : Bool) (originalResult : Except E α) :
    WrapperOutcome E α :=
  if !networkEnabled then { result := originalResult, sent := false }
  else
    match originalResult with
    | .ok resp => { result := .ok resp, sent := true }
    | .error e => { result := .error e, sent := true }

/-- C1 counterexample: the claim says an exception thrown by the original
console method propagates unchanged through the wrapper.  In the source the
call to the original is wrapped in `try { ... } catch (err) { /* ignore */ }`,
so the wrapper completes normally (and still captures) instead of rethrowing. -/
theorem patchedConsole_swallows_counterexample :
    (patchedConsoleMethod (some (.thrown "boom")) true).result = Except.ok () ∧
    (Except.ok () : Except String Unit) ≠ Except.error "boom" :=
  ⟨rfl, fun h => Except.noConfusion h⟩

/-- C1 (amended): the patched *network* call is transparent — the original
`fetch`'s resolution or rejection propagates unchanged to the caller — but
the patched *console* methods catch and ignore any exception thrown by the
original console method: the wrapper always completes normally, still
performing capture when enabled. -/
theorem captureWrapper_exception_behavior :
    (∀ (E α : Type) (networkEnabled : Bool) (originalResult : Except E α),
        (patchedFetch networkEnabled originalResult).result = originalResult) ∧
    (∀ (E : Type) (original : Option (CallBehavior E)) (captureConsole : Bool),
        (patchedConsoleMethod original captureConsole).result = Except.ok ()) := by
  constructor
  · intro E α networkEnabled originalResult
    cases networkEnabled <;> cases originalResult <;> rfl
  · intro E original captureConsole
    rcases original with _ | b
    · cases captureConsole <;> rfl
    · cases b <;> cases captureConsole <;> rfl

end ConsoleSamurai

/-! ## Transport client connection state machine (C3, C7)

Shallow embedding of the Node transport client's connection handling
(src/unnamed/part_000 lines 43-126; the browser client in part_001 lines
19-99 is identical for these functions up to the WebSocket API used).  The
single-threaded event loop is modelled by applying, one at a time, the
functions that the source registers as callbacks: the `close` handler of the
active socket and the `setTimeout` callback of `retryConnect`.  Sockets are
identified by the order of their creation; `attempts` counts how many
sockets `connect()` has ever created, so "a new connection attempt" is an
increase of `attempts`. -/

namespace ConsoleSamurai

/-- The connection-related part of the client's module-level `state`
(src/unnamed/part_000 lines 43-51), plus the bookkeeping that makes the
event loop explicit: `pending` counts scheduled reconnect timers whose
callback has not fired yet, `closing` lists sockets that were closed locally
and whose `close` event has therefore not yet been delivered, and
`attempts`/`nextSock` record socket creation. -/
structure TcState where
  ws : Option Nat
  connected : Bool
  pending : Nat
  closing : List Nat
  nextSock : Nat
  attempts : Nat

/-- The state of a freshly loaded client module before `start()`. -/
def initTcState : TcState :=
  { ws := none, connected := false, pending := 0, closing := [], nextSock := 0, attempts := 0 }

/-- `connect()` (src/unnamed/part_000 lines 79-115): skipped entirely when a
connection object already exists, otherwise a new socket is created and
stored in `state.ws`. -/
def connect (s : TcState) : TcState :=
  match s.ws with
  | some _ => s
  | none =>
    { s with ws := some s.nextSock, nextSock := s.nextSock + 1, attempts := s.attempts + 1 }

/-- The socket's `open` event handler (src/unnamed/part_000 lines 88-93);
queue flushing and the hello message do not touch the connection fields. -/
def openEvent (s : TcState) : TcState :=
  { s with connected := true }

/-- `stop()` (src/unnamed/part_000 lines 61-66): closes the active socket —
which will deliver that socket's `close` event to the handlers that remain
attached — and nulls `state.ws`. -/
def stop (s : TcState) : TcState :=
  match s.ws with
  | some c => { s with ws := none, closing := c :: s.closing }
  | none => s

/-- The socket's `close` event handler (src/unnamed/part_000 lines 106-110)
followed by `retryConnect` (lines 117-126): the handler nulls `state.ws`,
clears `connected` and schedules one reconnect timer.  `c` is the socket
whose close event is being delivered. -/
def closeEvent (s : TcState) (c : Nat) : TcState :=
  { s with connected := false, ws := none, pending := s.pending + 1,
           closing := s.closing.erase c }

/-- The `setTimeout` callback scheduled by `retryConnect`
(src/unnamed/part_000 lines 118-122): when a timer fires it is consumed, and
`connect()` runs only if no connection object exists. -/
def timerFire (s : TcState) : TcState :=
  if s.pending = 0 then s
  else
    let s := { s with pending := s.pending - 1 }
    match s.ws with
    | some _ => s
    | none => connect s

/-- Deliver one `close` event per socket in the list. -/
def applyCloses (cs : List Nat) (s : TcState) : TcState :=
  match cs with
  | [] => s
  | c :: rest => applyCloses rest (closeEvent s c)

/-- Fire `n` scheduled reconnect timers in sequence. -/
def fireTimers (n : Nat) (s : TcState) : TcState :=
  match n with
  | 0 => s
  | n + 1 => fireTimers n (timerFire s)

/-- The state of a client that ran `start()` and whose socket opened:
`connect` created socket 0 and its `open` event fired. -/
def startedState : TcState := openEvent (connect initTcState)

/-- C3 failing input evaluated on the model: from a started, connected
client, calling `stop()` closes socket 0; the socket's `close` event then
fires the registered handler, which schedules a reconnect timer; when that
timer fires, `state.ws` is `null` — precisely because `stop()` nulled it —
so `connect()` opens a brand-new connection.  `attempts` rises from 1 to 2
after `stop()` with no intervening `start()`, refuting the claim that no new
connection attempt is ever made. -/
theorem stop_then_reconnect_bug :
    startedState.attempts = 1 ∧
    (stop startedState).ws = none ∧
    (stop startedState).attempts = 1 ∧
    (timerFire (closeEvent (stop startedState) 0)).attempts = 2 ∧
    (timerFire (closeEvent (stop startedState) 0)).ws = some 1 := by
  refine ⟨rfl, rfl, rfl, rfl, rfl⟩

end ConsoleSamurai

namespace ConsoleSamurai

/-- Once a connection object exists, firing any number of pending reconnect
timers neither creates a socket nor replaces the current one: each timer
callback sees `state.ws` non-null and skips `connect()`. -/
theorem fireTimers_skip_when_connected :
    ∀ (n : Nat) (s : TcState) (c : Nat), s.ws = some c →
      (fireTimers n s).attempts = s.attempts ∧ (fireTimers n s).ws = some c := by
  intro n
  induction n with
  | zero => intro s c h; exact ⟨rfl, h⟩
  | succ n ih =>
    intro s c h
    show (fireTimers n (timerFire s)).attempts = s.attempts ∧
      (fireTimers n (timerFire s)).ws = some c
    by_cases hp : s.pending = 0
    · have ht : timerFire s = s := by simp [timerFire, hp]
      rw [ht]; exact ih s c h
    · have ht : timerFire s = { s with pending := s.pending - 1 } := by
        simp [timerFire, hp, h]
      rw [ht]; exact ih _ c h

/-- Effect of delivering a batch of `close` events: each one schedules one
reconnect timer, nulls `state.ws`, and touches nothing else relevant. -/
theorem applyCloses_fields :
    ∀ (cs : List Nat) (s : TcState),
      (applyCloses cs s).pending = s.pending + cs.length ∧
      (applyCloses cs s).attempts = s.attempts ∧
      (applyCloses cs s).nextSock = s.nextSock ∧
      (cs ≠ [] → (applyCloses cs s).ws = none) := by
  intro cs
  induction cs with
  | nil => intro s; exact ⟨rfl, rfl, rfl, fun h => absurd rfl h⟩
  | cons c rest ih =>
    intro s
    have h := ih (closeEvent s c)
    refine ⟨?_, h.2.1, h.2.2.1, fun _ => ?_⟩
    · show (applyCloses rest (closeEvent s c)).pending = s.pending + (rest.length + 1)
      rw [h.1]
      simp [closeEvent]
      omega
    · cases rest with
      | nil => rfl
      | cons c2 r2 => exact h.2.2.2 (by simp)

/-- C7: if any positive number of `close` events is delivered before the
reconnect timers they scheduled fire, then firing all of those timers
results in exactly one new connection attempt (the first timer finds
`state.ws` null and calls `connect()`; every later timer finds the new
socket and skips), and moreover `connect()` is a no-op whenever a connection
object already exists. -/
theorem reconnect_idempotent (s : TcState) (cs : List Nat) (hcs : cs ≠ []) :
    (fireTimers ((applyCloses cs s).pending) (applyCloses cs s)).attempts = s.attempts + 1 ∧
    (fireTimers ((applyCloses cs s).pending) (applyCloses cs s)).ws =
      some (applyCloses cs s).nextSock ∧
    (∀ (t : TcState) (c : Nat), t.ws = some c → connect t = t) := by
  obtain ⟨hp, ha, hn, hw⟩ := applyCloses_fields cs s
  have hw' := hw hcs
  have hlen : 1 ≤ cs.length := by
    cases cs with
    | nil => exact absurd rfl hcs
    | cons c rest => simp
  have hpend : (applyCloses cs s).pending = ((applyCloses cs s).pending - 1) + 1 := by omega
  have hstep : fireTimers ((applyCloses cs s).pending) (applyCloses cs s) =
      fireTimers ((applyCloses cs s).pending - 1) (timerFire (applyCloses cs s)) := by
    conv_lhs => rw [hpend]
    rfl
  have hne : (applyCloses cs s).pending ≠ 0 := by omega
  have ht : timerFire (applyCloses cs s) =
      connect { applyCloses cs s with pending := (applyCloses cs s).pending - 1 } := by
    simp [timerFire, hne, hw']
  have hcn : connect { applyCloses cs s with pending := (applyCloses cs s).pending - 1 } =
      { applyCloses cs s with
          pending := (applyCloses cs s).pending - 1
          ws := some (applyCloses cs s).nextSock
          nextSock := (applyCloses cs s).nextSock + 1
          attempts := (applyCloses cs s).attempts + 1 } := by
    simp [connect, hw']
  have hskip := fireTimers_skip_when_connected ((applyCloses cs s).pending - 1)
      { applyCloses cs s with
          pending := (applyCloses cs s).pending - 1
          ws := some (applyCloses cs s).nextSock
          nextSock := (applyCloses cs s).nextSock + 1
          attempts := (applyCloses cs s).attempts + 1 }
      ((applyCloses cs s).nextSock) rfl
  refine ⟨?_, ?_, ?_⟩
  · rw [hstep, ht, hcn, hskip.1]
    simp [ha]
  · rw [hstep, ht, hcn, hskip.2]
  · intro t c h
    simp [connect, h]

/-- Witness for C7 at a concrete input: from the started state, the server
closes the connection three times in a row (three close events), yet firing
all three scheduled reconnect timers opens exactly one new socket. -/
theorem reconnect_idempotent_witness :
    (fireTimers ((applyCloses [0, 0, 0] startedState).pending)
        (applyCloses [0, 0, 0] startedState)).attempts = startedState.attempts + 1 :=
  (reconnect_idempotent startedState [0, 0, 0] (by simp)).1

end ConsoleSamurai

/-! ## Host-side log store and inline annotation state (C5, C6, C9, C10)

Shallow embedding of src/extension.js lines 294-338 (`addLogEntry`,
`trimLogs`), 351-374 (`updateInlineForEntry`), 435-453 (`formatInlineText`),
503-535 (`formatFallbackText`, `stringifyValue`, `sanitizeLevel`) and
741-747 (`clearLogs`).  The filesystem-dependent correlator
`resolveEntryPath` is passed in as a function parameter `resolve`, and the
timestamp renderer `formatTimestamp` as `fmtTs`; both are pure inputs from
the model's point of view. -/

namespace ConsoleSamurai

/-- The `LEVELS` constant (src/extension.js line 10). -/
def LEVELS : List String :=
  ["log", "info", "warn", "error", "debug", "trace", "time", "network"]

/-- A `status` value on the wire: the HTTP status number, or the string
`'ERR'` that the browser client sends for a failed fetch. -/
inductive JStat where
  | num (n : Int)
  | str (s : String)

/-- JavaScript `a || b` where `a` is a possibly-absent string: `undefined`
and the empty string are falsy. -/
def orStr (a : Option String) (b : String) : String :=
  match a with
  | some s => if s = "" then b else s
  | none => b

/-- JavaScript `a || null` for a possibly-absent string. -/
def orStrNull (a : Option String) : Option String :=
  match a with
  | some s => if s = "" then none else some s
  | none => none

/-- JavaScript `a || null` for a possibly-absent number: `undefined` and `0`
are falsy. -/
def orIntNull (a : Option Int) : Option Int :=
  match a with
  | some n => if n = 0 then none else some n
  | none => none

/-- JavaScript `a || null` for a possibly-absent status value: `undefined`,
`0` and the empty string are falsy. -/
def orStatNull (a : Option JStat) : Option JStat :=
  match a with
  | some (.num n) => if n = 0 then none else some (.num n)
  | some (.str s) => if s = "" then none else some (.str s)
  | none => none

/-- An inbound `log` message as received from a client (wire protocol §6 of
the spec): every field beyond `type` may be absent. -/
structure Payload where
  type : Option String := none
  level : Option String := none
  kind : Option String := none
  text : Option String := none
  values : Option (List SVal) := none
  timestamp : Option Int := none
  file : Option String := none
  line : Option Int := none
  column : Option Int := none
  stack : Option String := none
  url : Option String := none
  method : Option String := none
  status : Option JStat := none
  durationMs : Option Int := none
  label : Option String := none
  source : Option String := none

/-- A stored LogEvent (the `entry` literal of src/extension.js
lines 298-316). -/
structure Entry where
  id : Nat
  level : String
  kind : String
  text : String
  values : List SVal
  timestamp : Int
  file : Option String
  line : Option Int
  column : Option Int
  stack : Option String
  url : Option String
  method : Option String
  status : Option JStat
  durationMs : Option Int
  label : Option String
  source : Option String
  clientId : Nat

/-- `sanitizeLevel` (src/extension.js lines 530-535). -/
def sanitizeLevel (level : String) : String :=
  if LEVELS.contains level then level else "log"

/-- The entry construction of `addLogEntry` (src/extension.js lines
294-316): `newId` is the value of `++state.logSeq` and `now` is `Date.now()`
used when the payload carries no numeric timestamp. -/
def mkEntry (p : Payload) (clientId : Nat) (newId : Nat) (now : Int) : Entry :=
  let level := sanitizeLevel (orStr p.level (orStr p.kind "log"))
  { id := newId
    level := level
    kind := orStr p.kind (orStr p.type level)
    text := orStr p.text ""
    values := p.values.getD []
    timestamp := p.timestamp.getD now
    file := orStrNull p.file
    line := orIntNull p.line
    column := orIntNull p.column
    stack := orStrNull p.stack
    url := orStrNull p.url
    method := orStrNull p.method
    status := orStatNull p.status
    durationMs := orIntNull p.durationMs
    label := orStrNull p.label
    source := orStrNull p.source
    clientId := clientId }

/-- Aggregated per-line state (`{ entry, count }`, src/extension.js
line 368). -/
structure LineData where
  entry : Entry
  count : Nat

/-- Lookup in an insertion-ordered map (JavaScript `Map.get`). -/
def mapGet {κ α : Type} [BEq κ] : List (κ × α) → κ → Option α
  | [], _ => none
  | e :: rest, k => if e.1 == k then some e.2 else mapGet rest k

/-- Update in an insertion-ordered map (JavaScript `Map.set`): an existing
key keeps its position, a new key is appended. -/
def mapSet {κ α : Type} [BEq κ] : List (κ × α) → κ → α → List (κ × α)
  | [], k, v => [(k, v)]
  | e :: rest, k, v => if e.1 == k then (k, v) :: rest else e :: mapSet rest k v

/-- The extension's mutable state relevant to the Log Store and the inline
annotation state (`state.logs`, `state.logSeq`, `state.lineStateByUri`,
src/extension.js lines 12-29). -/
structure ExtState where
  logs : List Entry
  logSeq : Nat
  lineStateByUri : List (String × List (Nat × LineData))

/-- The extension's state at activation. -/
def initExtState : ExtState := { logs := [], logSeq := 0, lineStateByUri := [] }

/-- The configuration fields the modelled functions read
(src/extension.js lines 83-108). -/
structure ExtConfig where
  maxLogEntries : Nat
  enabledLevels : List String
  inlineEnabled : Bool
  inlineMaxTextLength : Nat
  inlineShowTimestamp : Bool

/-- `vscode.Uri.file(path).toString()` used only as a map key
(src/extension.js lines 357-360); modelled as an injective tag. -/
def fileUriKey (p : String) : String := "file://" ++ p

/-- `trimLogs` (src/extension.js lines 331-338): when the store exceeds
`maxLogEntries`, the oldest `overflow` entries are removed from the front in
one `splice`. -/
def trimLogs (cfg : ExtConfig) (s : ExtState) : ExtState :=
  if s.logs.length ≤ cfg.maxLogEntries then s
  else { s with logs := s.logs.drop (s.logs.length - cfg.maxLogEntries) }

/-- The zero-based display line of an entry:
`Math.max(0, (entry.line || 1) - 1)` (src/extension.js line 358). -/
def displayLine (entry : Entry) : Nat := (max 0 ((entry.line.getD 1) - 1)).toNat

/-- `updateInlineForEntry` (src/extension.js lines 351-374): resolve the
entry's location (`resolve` stands for `resolveEntryPath`, whose filesystem
probing is outside the model); on success, bump the occurrence count for the
zero-based line (`displayLine`) and store the new entry as that line's
current one.  Editor redrawing (lines 370-373) does not touch the state. -/
def updateInlineForEntry (resolve : Entry → Option String) (s : ExtState)
    (entry : Entry) : ExtState :=
  match resolve entry with
  | none => s
  | some resolvedPath =>
    let uriKey := fileUriKey resolvedPath
    let line := displayLine entry
    let lineState := (mapGet s.lineStateByUri uriKey).getD []
    let count :=
      match mapGet lineState line with
      | some existing => existing.count + 1
      | none => 1
    { s with lineStateByUri :=
        mapSet s.lineStateByUri uriKey (mapSet lineState line ⟨entry, count⟩) }

/-- `addLogEntry` (src/extension.js lines 294-329): build the entry with the
next id, append, trim, then — only for an enabled level with inline display
on — update the per-line state.  `appendOutput` and `updateWebview` are
display-only collaborators and do not touch the modelled state. -/
def addLogEntry (cfg : ExtConfig) (resolve : Entry → Option String) (now : Int)
    (s : ExtState) (p : Payload) (clientId : Nat) : ExtState :=
  let entry := mkEntry p clientId (s.logSeq + 1) now
  let s1 : ExtState := { s with logSeq := s.logSeq + 1, logs := s.logs ++ [entry] }
  let s2 := trimLogs cfg s1
  if cfg.enabledLevels.contains entry.level then
    (if cfg.inlineEnabled then updateInlineForEntry resolve s2 entry else s2)
  else s2

/-- `clearLogs` (src/extension.js lines 741-747): empties the log list and
the whole per-line state; `state.logSeq` is left untouched.  The output
channel and webview refreshes are display-only. -/
def clearLogs (s : ExtState) : ExtState :=
  { s with logs := [], lineStateByUri := [] }

end ConsoleSamurai

namespace ConsoleSamurai

/-- JSON string literal quoting, with the two escapes relevant to the model;
stands in for the quoting JSON.stringify performs. -/
def jsonString (s : String) : String :=
  "\"" ++ s.foldl (fun acc c =>
    acc ++ (if c = '"' then "\\\"" else if c = '\\' then "\\\\" else String.singleton c)) "" ++ "\""

/-- `JSON.stringify` on a serializer output value; `none` models the
JavaScript call returning `undefined` (which it does exactly on the
top-level `undefined`).  An `undefined` array element renders as `null`; an
`undefined` object property is dropped. -/
def jsonStringify : SVal → Option String
  | .snull => some "null"
  | .sundefined => none
  | .snum n => some (toString n)
  | .sbool b => some (toString b)
  | .sstr s => some (jsonString s)
  | .sarr elems => some ("[" ++ String.intercalate "," (jsonArrayItems elems) ++ "]")
  | .sobj props => some ("\x7b" ++ String.intercalate "," (jsonObjItems props) ++ "\x7d")
where
  jsonArrayItems : List SVal → List String
    | [] => []
    | v :: rest =>
      (match jsonStringify v with
       | some s => s
       | none => "null") :: jsonArrayItems rest
  jsonObjItems : List (String × SVal) → List String
    | [] => []
    | kv :: rest =>
      match jsonStringify kv.2 with
      | some s => (jsonString kv.1 ++ ":" ++ s) :: jsonObjItems rest
      | none => jsonObjItems rest

/-- `stringifyValue` (src/extension.js lines 516-528).  The `try/catch`
fallback of the source cannot fire here because the modelled values are
finite trees, and `JSON.stringify` returns a string on every non-`undefined`
input. -/
def stringifyValue (value : SVal) : String :=
  match value with
  | .snull => "null"
  | .sundefined => "undefined"
  | .sstr s => s
  | v =>
    match jsonStringify v with
    | some s => s
    | none => "undefined"

/-- `${entry.status || ''}` (src/extension.js line 505). -/
def statusText (st : Option JStat) : String :=
  match st with
  | none => ""
  | some (.num n) => toString n
  | some (.str s) => s

/-- `${x || ''}` for an optional number. -/
def optIntText (x : Option Int) : String :=
  match x with
  | none => ""
  | some n => toString n

/-- `formatFallbackText` (src/extension.js lines 503-514). -/
def formatFallbackText (entry : Entry) : String :=
  if entry.kind = "network" then
    (orStr entry.method "GET" ++ " " ++ orStr entry.url "" ++ " " ++
      statusText entry.status ++ " " ++ optIntText entry.durationMs ++ "ms").trim
  else if entry.kind = "time" then
    (orStr entry.label "timer" ++ " " ++ optIntText entry.durationMs ++ "ms").trim
  else if entry.values.length ≠ 0 then
    String.intercalate " " (entry.values.map stringifyValue)
  else
    entry.text

/-- `formatInlineText(entry, count)` (src/extension.js lines 435-453).
`fmtTs` stands for `formatTimestamp`; `Math.max(0, maxLen - 3)` is the
truncated `Nat` subtraction. -/
def formatInlineText (cfg : ExtConfig) (fmtTs : Int → String) (entry : Entry)
    (count : Nat) : String :=
  let maxLen := cfg.inlineMaxTextLength
  let prefixStr := if cfg.inlineShowTimestamp then "[" ++ fmtTs entry.timestamp ++ "] " else ""
  let text := if entry.text = "" then formatFallbackText entry else entry.text
  let text := if text.length > maxLen then text.take (maxLen - 3) ++ "..." else text
  let suffix := if count > 1 then " (+" ++ toString (count - 1) ++ ")" else ""
  " " ++ prefixStr ++ text ++ suffix

end ConsoleSamurai

/-! ## Log Store claims (C5, C6) -/

namespace ConsoleSamurai

/-- Ingest a list of `(payload, clientId)` messages in order, as the
Transport Server hands `log` messages to `addLogEntry`
(src/extension.js lines 289-291). -/
def ingestAll (cfg : ExtConfig) (resolve : Entry → Option String) (now : Int) :
    ExtState → List (Payload × Nat) → ExtState
  | s, [] => s
  | s, pc :: rest => ingestAll cfg resolve now (addLogEntry cfg resolve now s pc.1 pc.2) rest

/-- Reference sequence: the entries a run of ingests would create if nothing
were ever trimmed, starting from id counter `startSeq`. -/
def entriesOf (now : Int) : Nat → List (Payload × Nat) → List Entry
  | _, [] => []
  | startSeq, pc :: rest => mkEntry pc.1 pc.2 (startSeq + 1) now :: entriesOf now (startSeq + 1) rest

/-- `entriesOf` creates one entry per ingested payload. -/
theorem entriesOf_length (now : Int) :
    ∀ (ps : List (Payload × Nat)) (startSeq : Nat), (entriesOf now startSeq ps).length = ps.length := by
  intro ps
  induction ps with
  | nil => intro startSeq; rfl
  | cons pc rest ih => intro startSeq; simp [entriesOf, ih]

/-- `updateInlineForEntry` only touches the per-line state. -/
theorem updateInline_preserves_logs (resolve : Entry → Option String) (s : ExtState)
    (entry : Entry) :
    (updateInlineForEntry resolve s entry).logs = s.logs ∧
    (updateInlineForEntry resolve s entry).logSeq = s.logSeq := by
  unfold updateInlineForEntry
  cases resolve entry <;> simp

/-- `trimLogs` keeps exactly the newest `min (length, maxLogEntries)`
entries, dropping the oldest overflow from the front, and leaves the id
counter alone. -/
theorem trimLogs_logs (cfg : ExtConfig) (s : ExtState) :
    (trimLogs cfg s).logs = s.logs.drop (s.logs.length - cfg.maxLogEntries) ∧
    (trimLogs cfg s).logSeq = s.logSeq := by
  unfold trimLogs
  split
  · simp [Nat.sub_eq_zero_of_le ‹_›]
  · simp

/-- One `addLogEntry` call: the id counter advances by one and the log list
becomes the newest `maxLogEntries`-bounded suffix of the old list plus the
new entry. -/
theorem addLogEntry_logs (cfg : ExtConfig) (resolve : Entry → Option String) (now : Int)
    (s : ExtState) (p : Payload) (c : Nat) :
    (addLogEntry cfg resolve now s p c).logSeq = s.logSeq + 1 ∧
    (addLogEntry cfg resolve now s p c).logs =
      (s.logs ++ [mkEntry p c (s.logSeq + 1) now]).drop
        ((s.logs.length + 1) - cfg.maxLogEntries) := by
  have ht := trimLogs_logs cfg
    { s with logSeq := s.logSeq + 1, logs := s.logs ++ [mkEntry p c (s.logSeq + 1) now] }
  have hlen : ({ s with logSeq := s.logSeq + 1, logs := s.logs ++ [mkEntry p c (s.logSeq + 1) now] } : ExtState).logs.length = s.logs.length + 1 := by simp
  by_cases h1 : (mkEntry p c (s.logSeq + 1) now).level ∈ cfg.enabledLevels
  · by_cases h2 : cfg.inlineEnabled
    · have hred : addLogEntry cfg resolve now s p c =
          updateInlineForEntry resolve
            (trimLogs cfg { s with logSeq := s.logSeq + 1, logs := s.logs ++ [mkEntry p c (s.logSeq + 1) now] })
            (mkEntry p c (s.logSeq + 1) now) := by
        simp [addLogEntry, h1, h2]
      have hu := updateInline_preserves_logs resolve
        (trimLogs cfg { s with logSeq := s.logSeq + 1, logs := s.logs ++ [mkEntry p c (s.logSeq + 1) now] })
        (mkEntry p c (s.logSeq + 1) now)
      rw [hred, hu.2, hu.1, ht.1, ht.2, hlen]
      exact ⟨rfl, rfl⟩
    · have hred : addLogEntry cfg resolve now s p c =
          trimLogs cfg { s with logSeq := s.logSeq + 1, logs := s.logs ++ [mkEntry p c (s.logSeq + 1) now] } := by
        simp [addLogEntry, h1, h2]
      rw [hred, ht.1, ht.2, hlen]
      exact ⟨rfl, rfl⟩
  · have hred : addLogEntry cfg resolve now s p c =
        trimLogs cfg { s with logSeq := s.logSeq + 1, logs := s.logs ++ [mkEntry p c (s.logSeq + 1) now] } := by
      simp [addLogEntry, h1]
    rw [hred, ht.1, ht.2, hlen]
    exact ⟨rfl, rfl⟩

/-- Invariant run of `ingestAll`: starting below the capacity bound, the
final log list is exactly the newest `maxLogEntries`-bounded suffix of the
untrimmed entry sequence, and the id counter counts every ingest. -/
theorem ingestAll_logs (cfg : ExtConfig) (resolve : Entry → Option String) (now : Int) :
    ∀ (ps : List (Payload × Nat)) (s : ExtState), s.logs.length ≤ cfg.maxLogEntries →
      (ingestAll cfg resolve now s ps).logSeq = s.logSeq + ps.length ∧
      (ingestAll cfg resolve now s ps).logs =
        (s.logs ++ entriesOf now s.logSeq ps).drop
          ((s.logs.length + ps.length) - cfg.maxLogEntries) := by
  intro ps
  induction ps with
  | nil =>
    intro s hle
    refine ⟨rfl, ?_⟩
    simp [ingestAll, entriesOf, Nat.sub_eq_zero_of_le hle]
  | cons pc rest ih =>
    intro s hle
    obtain ⟨ha1, ha2⟩ := addLogEntry_logs cfg resolve now s pc.1 pc.2
    have hd1 : (s.logs.length + 1) - cfg.maxLogEntries ≤ (s.logs ++ [mkEntry pc.1 pc.2 (s.logSeq + 1) now]).length := by
      simp only [List.length_append, List.length_singleton]
      omega
    have hlen1 : (addLogEntry cfg resolve now s pc.1 pc.2).logs.length ≤ cfg.maxLogEntries := by
      rw [ha2]
      simp [List.length_drop]
      omega
    obtain ⟨hi1, hi2⟩ := ih (addLogEntry cfg resolve now s pc.1 pc.2) hlen1
    constructor
    · show (ingestAll cfg resolve now (addLogEntry cfg resolve now s pc.1 pc.2) rest).logSeq =
        s.logSeq + (rest.length + 1)
      rw [hi1, ha1]
      omega
    · show (ingestAll cfg resolve now (addLogEntry cfg resolve now s pc.1 pc.2) rest).logs =
        (s.logs ++ entriesOf now s.logSeq (pc :: rest)).drop
          ((s.logs.length + (rest.length + 1)) - cfg.maxLogEntries)
      rw [hi2, ha2, ha1]
      rw [List.length_drop]
      rw [← List.drop_append_of_le_length hd1]
      rw [List.drop_drop]
      have harr : (s.logs ++ [mkEntry pc.1 pc.2 (s.logSeq + 1) now]) ++
          entriesOf now (s.logSeq + 1) rest =
          s.logs ++ entriesOf now s.logSeq (pc :: rest) := by
        show (s.logs ++ [mkEntry pc.1 pc.2 (s.logSeq + 1) now]) ++
          entriesOf now (s.logSeq + 1) rest =
          s.logs ++ (mkEntry pc.1 pc.2 (s.logSeq + 1) now :: entriesOf now (s.logSeq + 1) rest)
        simp
      rw [harr]
      congr 1
      simp only [List.length_append, List.length_singleton]
      omega

end ConsoleSamurai

namespace ConsoleSamurai

/-- Configuration used by the C5 scenario: capacity 2, all levels enabled,
inline display off. -/
def scCfg : ExtConfig :=
  { maxLogEntries := 2, enabledLevels := LEVELS, inlineEnabled := false,
    inlineMaxTextLength := 120, inlineShowTimestamp := false }

/-- First scenario payload. -/
def scP1 : Payload := { text := some "one" }

/-- Second scenario payload. -/
def scP2 : Payload := { text := some "two" }

/-- Third scenario payload. -/
def scP3 : Payload := { text := some "three" }

/-- C5: after any sequence of ingests the store holds at most
`maxLogEntries` entries, and the retained entries are exactly the most
recently ingested ones in ingestion order (the drop removes the overflow in
one splice from the front of the untrimmed sequence); in particular
ingesting three events with `maxLogEntries = 2` leaves exactly the 2nd and
3rd entries, in that order, with their original ids 2 and 3. -/
theorem logStore_ring_buffer :
    (∀ (cfg : ExtConfig) (resolve : Entry → Option String) (now : Int)
        (ps : List (Payload × Nat)),
      (ingestAll cfg resolve now initExtState ps).logs.length ≤ cfg.maxLogEntries ∧
      (ingestAll cfg resolve now initExtState ps).logs =
        (entriesOf now 0 ps).drop (ps.length - cfg.maxLogEntries)) ∧
    (ingestAll scCfg (fun _ => none) 0 initExtState [(scP1, 7), (scP2, 7), (scP3, 7)]).logs =
      [mkEntry scP2 7 2 0, mkEntry scP3 7 3 0] ∧
    ((ingestAll scCfg (fun _ => none) 0 initExtState
        [(scP1, 7), (scP2, 7), (scP3, 7)]).logs.map Entry.id) = [2, 3] := by
  refine ⟨?_, rfl, rfl⟩
  intro cfg resolve now ps
  obtain ⟨h1, h2⟩ := ingestAll_logs cfg resolve now ps initExtState (by simp [initExtState])
  have hlogs : (ingestAll cfg resolve now initExtState ps).logs =
      (entriesOf now 0 ps).drop (ps.length - cfg.maxLogEntries) := by
    rw [h2]
    simp [initExtState]
  refine ⟨?_, hlogs⟩
  rw [hlogs, List.length_drop, entriesOf_length]
  omega

/-- A Log Store operation: an ingest of a payload from a client, or an
explicit clear. -/
inductive StoreOp where
  | ingest (p : Payload) (c : Nat)
  | clear

/-- Run a sequence of store operations. -/
def runOps (cfg : ExtConfig) (resolve : Entry → Option String) (now : Int) :
    ExtState → List StoreOp → ExtState
  | s, [] => s
  | s, .ingest p c :: rest => runOps cfg resolve now (addLogEntry cfg resolve now s p c) rest
  | s, .clear :: rest => runOps cfg resolve now (clearLogs s) rest

/-- The ids assigned (`++state.logSeq`) at each ingest of a run, in order. -/
def assignedIds (cfg : ExtConfig) (resolve : Entry → Option String) (now : Int) :
    ExtState → List StoreOp → List Nat
  | _, [] => []
  | s, .ingest p c :: rest =>
    (s.logSeq + 1) :: assignedIds cfg resolve now (addLogEntry cfg resolve now s p c) rest
  | s, .clear :: rest => assignedIds cfg resolve now (clearLogs s) rest

/-- Every id assigned during a run is strictly above the id counter the run
started from. -/
theorem assignedIds_gt (cfg : ExtConfig) (resolve : Entry → Option String) (now : Int) :
    ∀ (ops : List StoreOp) (s : ExtState) (x : Nat),
      x ∈ assignedIds cfg resolve now s ops → s.logSeq < x := by
  intro ops
  induction ops with
  | nil => intro s x hx; simp [assignedIds] at hx
  | cons op rest ih =>
    intro s x hx
    cases op with
    | ingest p c =>
      simp only [assignedIds, List.mem_cons] at hx
      rcases hx with hx | hx
      · omega
      · have hgt := ih _ x hx
        have hseq := (addLogEntry_logs cfg resolve now s p c).1
        omega
    | clear =>
      have hgt := ih (clearLogs s) x hx
      simpa [clearLogs] using hgt

/-- C6: across any interleaving of ingests and clears, the assigned ids are
strictly increasing (hence never repeated): `clear()` empties the store and
the whole per-line state but leaves the id counter untouched, and every
ingest advances the counter by exactly one. -/
theorem logStore_id_monotonic :
    (∀ (cfg : ExtConfig) (resolve : Entry → Option String) (now : Int)
        (s : ExtState) (ops : List StoreOp),
      List.Pairwise (· < ·) (assignedIds cfg resolve now s ops)) ∧
    (∀ t : ExtState, (clearLogs t).logs = [] ∧ (clearLogs t).lineStateByUri = [] ∧
      (clearLogs t).logSeq = t.logSeq) ∧
    (∀ (cfg : ExtConfig) (resolve : Entry → Option String) (now : Int)
        (s : ExtState) (p : Payload) (c : Nat),
      (addLogEntry cfg resolve now s p c).logSeq = s.logSeq + 1) := by
  refine ⟨?_, fun t => ⟨rfl, rfl, rfl⟩,
    fun cfg resolve now s p c => (addLogEntry_logs cfg resolve now s p c).1⟩
  intro cfg resolve now s ops
  induction ops generalizing s with
  | nil => simp [assignedIds]
  | cons op rest ih =>
    cases op with
    | ingest p c =>
      refine List.Pairwise.cons ?_ (ih _)
      intro x hx
      have hgt := assignedIds_gt cfg resolve now rest _ x hx
      have hseq := (addLogEntry_logs cfg resolve now s p c).1
      omega
    | clear => exact ih (clearLogs s)

end ConsoleSamurai

/-! ## Inline annotation state claims (C9) -/

namespace ConsoleSamurai

/-- Lookup after update at the same key returns the new value. -/
theorem mapGet_set_self {κ α : Type} [BEq κ] [LawfulBEq κ] (m : List (κ × α)) (k : κ) (v : α) :
    mapGet (mapSet m k v) k = some v := by
  induction m with
  | nil => simp [mapGet, mapSet]
  | cons e rest ih =>
    by_cases h : e.1 == k
    · simp [mapSet, h, mapGet]
    · simp [mapSet, h, mapGet, ih]

/-- Lookup after update at a different key is unchanged. -/
theorem mapGet_set_other {κ α : Type} [BEq κ] [LawfulBEq κ] (m : List (κ × α)) (k k' : κ)
    (v : α) (hne : ¬(k == k')) : mapGet (mapSet m k v) k' = mapGet m k' := by
  induction m with
  | nil => simp [mapGet, mapSet, hne]
  | cons e rest ih =>
    by_cases h : e.1 == k
    · have h1 : e.1 = k := by simpa using h
      have h2 : ¬(e.1 == k') := by
        simpa [h1] using hne
      simp [mapSet, h, mapGet, hne, h2]
    · by_cases h2 : e.1 == k'
      · simp [mapSet, h, mapGet, h2]
      · simp [mapSet, h, mapGet, h2, ih]

/-- The `LineState` record currently held for a `(uri, zero-based line)`
key, if any (an absent uri behaves as an empty line map). -/
def dataAt (s : ExtState) (uriKey : String) (line : Nat) : Option LineData :=
  mapGet ((mapGet s.lineStateByUri uriKey).getD []) line

/-- The occurrence count currently held for a `(uri, zero-based line)` key;
`0` when the key has never been written. -/
def countAt (s : ExtState) (uriKey : String) (line : Nat) : Nat :=
  match dataAt s uriKey line with
  | none => 0
  | some d => d.count

/-- `updateInlineForEntry` on a resolvable entry stores that entry at its
`(uri, line)` key with the old occurrence count plus one (one, on the first
event for the key). -/
theorem updateInline_dataAt (resolve : Entry → Option String) (s : ExtState)
    (entry : Entry) (path : String) (hres : resolve entry = some path) :
    dataAt (updateInlineForEntry resolve s entry) (fileUriKey path) (displayLine entry) =
      some ⟨entry, countAt s (fileUriKey path) (displayLine entry) + 1⟩ := by
  cases ho : mapGet s.lineStateByUri (fileUriKey path) with
  | none =>
    simp [updateInlineForEntry, hres, dataAt, countAt, ho, mapGet_set_self, mapGet]
  | some lm =>
    cases hi : mapGet lm (displayLine entry) with
    | none => simp [updateInlineForEntry, hres, dataAt, countAt, ho, hi, mapGet_set_self]
    | some d => simp [updateInlineForEntry, hres, dataAt, countAt, ho, hi, mapGet_set_self]

end ConsoleSamurai

namespace ConsoleSamurai

/-- `updateInlineForEntry` leaves every other `(uri, line)` key untouched. -/
theorem updateInline_dataAt_other (resolve : Entry → Option String) (s : ExtState)
    (entry : Entry) (uriKey : String) (line : Nat) :
    ∀ path, resolve entry = some path →
      (uriKey ≠ fileUriKey path ∨ line ≠ displayLine entry) →
      dataAt (updateInlineForEntry resolve s entry) uriKey line = dataAt s uriKey line := by
  intro path hres hdiff
  rcases hdiff with hdiff | hdiff
  · have hne : ¬(fileUriKey path == uriKey) := by simpa using fun hh => hdiff (by simpa using hh.symm)
    simp [updateInlineForEntry, hres, dataAt, mapGet_set_other _ _ _ _ hne]
  · have hne : ¬((displayLine entry) == line) := by
      simpa using fun hh => hdiff (by simpa using hh.symm)
    by_cases hk : fileUriKey path == uriKey
    · have hk' : fileUriKey path = uriKey := by simpa using hk
      subst hk'
      simp [updateInlineForEntry, hres, dataAt, mapGet_set_self,
        mapGet_set_other _ _ _ _ hne]
    · simp [updateInlineForEntry, hres, dataAt, mapGet_set_other _ _ _ _ hk]

end ConsoleSamurai

namespace ConsoleSamurai

/-- `trimLogs` never touches the per-line state. -/
theorem trimLogs_lineState (cfg : ExtConfig) (s : ExtState) :
    (trimLogs cfg s).lineStateByUri = s.lineStateByUri := by
  unfold trimLogs
  split <;> rfl

/-- Recording one entry never lowers any occurrence count. -/
theorem updateInline_count_mono (resolve : Entry → Option String) (s : ExtState)
    (entry : Entry) (uriKey : String) (line : Nat) :
    countAt s uriKey line ≤ countAt (updateInlineForEntry resolve s entry) uriKey line := by
  cases hres : resolve entry with
  | none => simp [updateInlineForEntry, hres]
  | some path =>
    by_cases hk : uriKey = fileUriKey path
    · by_cases hl : line = displayLine entry
      · subst hk
        subst hl
        have hd := updateInline_dataAt resolve s entry path hres
        have hc : countAt (updateInlineForEntry resolve s entry) (fileUriKey path)
            (displayLine entry) =
            countAt s (fileUriKey path) (displayLine entry) + 1 := by
          simp [countAt, hd]
        omega
      · have hd := updateInline_dataAt_other resolve s entry uriKey line path hres (Or.inr hl)
        simp [countAt, hd]
    · have hd := updateInline_dataAt_other resolve s entry uriKey line path hres (Or.inl hk)
      simp [countAt, hd]

/-- An ingest never lowers any occurrence count (it either leaves the
per-line state alone or records the new entry through
`updateInlineForEntry`). -/
theorem addLogEntry_count_mono (cfg : ExtConfig) (resolve : Entry → Option String)
    (now : Int) (s : ExtState) (p : Payload) (c : Nat) (uriKey : String) (line : Nat) :
    countAt s uriKey line ≤ countAt (addLogEntry cfg resolve now s p c) uriKey line := by
  have hmid : countAt (trimLogs cfg { s with logSeq := s.logSeq + 1, logs := s.logs ++ [mkEntry p c (s.logSeq + 1) now] }) uriKey line = countAt s uriKey line := by
    simp [countAt, dataAt, trimLogs_lineState]
  by_cases h1 : (mkEntry p c (s.logSeq + 1) now).level ∈ cfg.enabledLevels
  · by_cases h2 : cfg.inlineEnabled
    · have hred : addLogEntry cfg resolve now s p c =
          updateInlineForEntry resolve
            (trimLogs cfg { s with logSeq := s.logSeq + 1, logs := s.logs ++ [mkEntry p c (s.logSeq + 1) now] })
            (mkEntry p c (s.logSeq + 1) now) := by
        simp [addLogEntry, h1, h2]
      rw [hred, ← hmid]
      exact updateInline_count_mono _ _ _ _ _
    · have hred : addLogEntry cfg resolve now s p c =
          trimLogs cfg { s with logSeq := s.logSeq + 1, logs := s.logs ++ [mkEntry p c (s.logSeq + 1) now] } := by
        simp [addLogEntry, h1, h2]
      rw [hred, hmid]
  · have hred : addLogEntry cfg resolve now s p c =
        trimLogs cfg { s with logSeq := s.logSeq + 1, logs := s.logs ++ [mkEntry p c (s.logSeq + 1) now] } := by
      simp [addLogEntry, h1]
    rw [hred, hmid]

/-- A correlator that resolves every entry to the same workspace file. -/
def rAll : Entry → Option String := fun _ => some "/ws/app.js"

/-- Configuration for the C9 scenario: inline display on, all levels
enabled. -/
def cfg9 : ExtConfig :=
  { maxLogEntries := 2000, enabledLevels := LEVELS, inlineEnabled := true,
    inlineMaxTextLength := 120, inlineShowTimestamp := false }

/-- First scenario event: line 10 of the resolved file. -/
def p9a : Payload := { text := some "first", line := some 10, level := some "log" }

/-- Second scenario event: the same line 10. -/
def p9b : Payload := { text := some "second", line := some 10, level := some "log" }

/-- The state after ingesting the two scenario events. -/
def s9 : ExtState := ingestAll cfg9 rAll 0 initExtState [(p9a, 1), (p9b, 1)]

/-- C9: the occurrence count for a `(file, line)` key starts at 1 on the
first recorded event, rises by exactly 1 on each later event recorded for
the key (which also replaces the stored entry by the newer one), and never
decreases across ingests; in the two-events-on-one-line scenario the stored
`LineState` is `{entry: second, count: 2}` and the inline text for it ends
in the `" (+1)"` suffix showing the second event's content. -/
theorem lineState_occurrenceCount :
    (∀ (resolve : Entry → Option String) (s : ExtState) (entry : Entry) (path : String),
      resolve entry = some path →
      dataAt (updateInlineForEntry resolve s entry) (fileUriKey path) (displayLine entry) =
        some ⟨entry, countAt s (fileUriKey path) (displayLine entry) + 1⟩) ∧
    (∀ (cfg : ExtConfig) (resolve : Entry → Option String) (now : Int) (s : ExtState)
        (p : Payload) (c : Nat) (uriKey : String) (line : Nat),
      countAt s uriKey line ≤ countAt (addLogEntry cfg resolve now s p c) uriKey line) ∧
    dataAt s9 (fileUriKey "/ws/app.js") 9 = some ⟨mkEntry p9b 1 2 0, 2⟩ ∧
    formatInlineText cfg9 (fun _ => "") (mkEntry p9b 1 2 0) 2 = " second (+1)" :=
  ⟨updateInline_dataAt, addLogEntry_count_mono, rfl, rfl⟩

/-- Witness for C9 at concrete inputs: recording the first scenario entry
into the empty state yields count 1 for its key, and one ingest does not
lower the (zero) count of an unrelated key. -/
theorem lineState_occurrenceCount_witness :
    dataAt (updateInlineForEntry rAll initExtState (mkEntry p9a 1 1 0))
        (fileUriKey "/ws/app.js") (displayLine (mkEntry p9a 1 1 0)) =
      some ⟨mkEntry p9a 1 1 0, countAt initExtState (fileUriKey "/ws/app.js")
        (displayLine (mkEntry p9a 1 1 0)) + 1⟩ ∧
    countAt initExtState "k" 0 ≤ countAt (addLogEntry cfg9 rAll 0 initExtState p9a 1) "k" 0 :=
  ⟨lineState_occurrenceCount.1 rAll initExtState (mkEntry p9a 1 1 0) "/ws/app.js" rfl,
   lineState_occurrenceCount.2.1 cfg9 rAll 0 initExtState p9a 1 "k" 0⟩

end ConsoleSamurai

/-! ## Ingestion normalization claims (C10) -/

namespace ConsoleSamurai

/-- C10: at ingestion, falsy domain fields are normalized — a `line`,
`column`, `durationMs` of 0 (and a `status` of 0 or the empty string) is
stored as null exactly when the incoming field was absent or falsy; a
missing or empty `text` is stored as the empty string; a missing or empty
`level` falls back to the payload's `kind` (validated by `sanitizeLevel`)
and then to `"log"`; in particular an event reporting line 0 is stored with
`line = none` — and the stored entry is immutable, so it is thereafter an
event without a line. -/
theorem addLogEntry_falsy_normalization :
    (∀ (p : Payload) (c n : Nat) (now : Int),
      ((mkEntry p c n now).line = none ↔ p.line = none ∨ p.line = some 0) ∧
      ((mkEntry p c n now).column = none ↔ p.column = none ∨ p.column = some 0) ∧
      ((mkEntry p c n now).durationMs = none ↔ p.durationMs = none ∨ p.durationMs = some 0) ∧
      ((mkEntry p c n now).status = none ↔
        p.status = none ∨ p.status = some (.num 0) ∨ p.status = some (.str "")) ∧
      ((p.text = none ∨ p.text = some "") → (mkEntry p c n now).text = "") ∧
      ((p.level = none ∨ p.level = some "") → p.kind = none →
        (mkEntry p c n now).level = "log") ∧
      (∀ k, (p.level = none ∨ p.level = some "") → p.kind = some k → k ≠ "" →
        (mkEntry p c n now).level = sanitizeLevel k)) ∧
    (mkEntry { text := some "zero", line := some 0 } 1 1 0).line = none := by
  refine ⟨?_, rfl⟩
  intro p c n now
  refine ⟨?_, ?_, ?_, ?_, ?_, ?_, ?_⟩
  · cases hp : p.line with
    | none => simp [mkEntry, orIntNull, hp]
    | some v => by_cases hv : v = 0 <;> simp [mkEntry, orIntNull, hp, hv]
  · cases hp : p.column with
    | none => simp [mkEntry, orIntNull, hp]
    | some v => by_cases hv : v = 0 <;> simp [mkEntry, orIntNull, hp, hv]
  · cases hp : p.durationMs with
    | none => simp [mkEntry, orIntNull, hp]
    | some v => by_cases hv : v = 0 <;> simp [mkEntry, orIntNull, hp, hv]
  · cases hp : p.status with
    | none => simp [mkEntry, orStatNull, hp]
    | some st =>
      cases st with
      | num v => by_cases hv : v = 0 <;> simp [mkEntry, orStatNull, hp, hv]
      | str v => by_cases hv : v = "" <;> simp [mkEntry, orStatNull, hp, hv]
  · intro h
    rcases h with h | h <;> simp [mkEntry, orStr, h]
  · intro hl hk
    have hlv : (mkEntry p c n now).level = sanitizeLevel (orStr p.level (orStr p.kind "log")) := rfl
    rw [hlv, hk]
    rcases hl with hl | hl <;> rw [hl] <;> rfl
  · intro k hl hk hkne
    have hlv : (mkEntry p c n now).level = sanitizeLevel (orStr p.level (orStr p.kind "log")) := rfl
    rw [hlv, hk]
    have h2 : orStr (some k) "log" = k := by simp [orStr, hkne]
    rw [h2]
    rcases hl with hl | hl <;> rw [hl] <;> simp [orStr]

/-- Witness for C10 at concrete inputs: a payload carrying zeros stores
nulls, a payload without text stores the empty string, a payload without
level or kind gets level `"log"`, and a payload whose only level information
is `kind = "warn"` gets level `"warn"`. -/
theorem addLogEntry_falsy_normalization_witness :
    (mkEntry { durationMs := some 0, status := some (.num 0), column := some 0 } 2 5 0).durationMs = none ∧
    (mkEntry ({} : Payload) 1 1 0).text = "" ∧
    (mkEntry ({} : Payload) 1 1 0).level = "log" ∧
    (mkEntry { kind := some "warn" } 1 1 0).level = sanitizeLevel "warn" :=
  ⟨((addLogEntry_falsy_normalization.1 _ 2 5 0).2.2.1).mpr (Or.inr rfl),
   (addLogEntry_falsy_normalization.1 _ 1 1 0).2.2.2.2.1 (Or.inl rfl),
   (addLogEntry_falsy_normalization.1 _ 1 1 0).2.2.2.2.2.1 (Or.inl rfl) rfl,
   (addLogEntry_falsy_normalization.1 _ 1 1 0).2.2.2.2.2.2 "warn" (Or.inl rfl) rfl
     (by decide)⟩

end ConsoleSamurai
